import Mathlib

/-!
# Verification of the weekly time/duration encoding subsystem
of `terraform-provider-oncall`

Shallow embedding of the pure conversion functions in
`oncall/resource_basic_schedule.go` and `oncall/provider.go`:
`parseHourMinStr`, `weekdayStartTimeToSeconds`, `secondsToDayHourMinute`,
`prettyPrintDuration`, together with the duration-shorthand parser the
provider delegates to (`maze.io/x/duration.ParseDuration`, not part of this
repository, hence modelled from the spec).

Go strings are modelled as `List Char`; Go `int` as `Int` with truncated
division (`Int.tdiv` / `Int.tmod`), which is Go's `/` and `%` semantics.
Errors are modelled as an explicit error enumeration following the spec's
taxonomy (the Go code returns distinct `error` values for each case).
-/

/-- The error taxonomy of the subsystem: `malformedTime` for the split/numeric
parse failures, `outOfRange` for hour/minute bound violations,
`unknownWeekday` for a day name matching none of the canonical seven. -/
inductive ScheduleErr : Type where
  | malformedTime : ScheduleErr
  | outOfRange : ScheduleErr
  | unknownWeekday : ScheduleErr
deriving DecidableEq, Repr

instance {ε α : Type} [DecidableEq ε] [DecidableEq α] : DecidableEq (Except ε α) := fun a b =>
  match a, b with
  | .error e, .error e' =>
    if h : e = e' then .isTrue (by rw [h]) else .isFalse (by simp [h])
  | .error _, .ok _ => .isFalse (by simp)
  | .ok _, .error _ => .isFalse (by simp)
  | .ok v, .ok v' =>
    if h : v = v' then .isTrue (by rw [h]) else .isFalse (by simp [h])

/-- Model of Go `strings.Split(s, sep)` for a one-character separator:
splits at every occurrence of the separator, keeping empty fields, and
returns `[s]` when the separator does not occur. -/
def splitOnChar (sep : Char) : List Char → List (List Char)
  | [] => [[]]
  | c :: cs =>
    match splitOnChar sep cs with
    | [] => [[]]
    | p :: ps => if c = sep then [] :: p :: ps else (c :: p) :: ps

/-- Model of `strings.TrimLeft(part, "0")` followed by the source's
replacement of an emptied part by `"0"`. -/
def trimZeros (part : List Char) : List Char :=
  let stripped := part.dropWhile (fun c => c == '0')
  if stripped = [] then ['0'] else stripped

/-- Decimal value of a digit list, accumulator style, exactly the
accumulation `strconv` performs. -/
def foldDigits (a : Nat) (ds : List Char) : Nat :=
  ds.foldl (fun acc c => acc * 10 + (c.toNat - 48)) a

/-- The digits-and-range part of Go `strconv.ParseInt(s, 10, 64)` after the
sign has been removed: all characters must be decimal digits (at least one),
and the resulting value must fit in a 64-bit `int`; otherwise `strconv`
reports an error. -/
def atoiDigits (ds : List Char) (neg : Bool) : Option Int :=
  if ds = [] then none
  else if ds.all Char.isDigit then
    let n := foldDigits 0 ds
    if neg then
      if n ≤ 2 ^ 63 then some (-(n : Int)) else none
    else
      if n ≤ 2 ^ 63 - 1 then some (n : Int) else none
  else none

/-- Model of Go `strconv.Atoi`: an optional single leading `+` or `-` sign
followed by one or more decimal digits, value within the 64-bit `int`
range. Returns `none` exactly when Go returns a non-nil error. -/
def strconvAtoi (s : List Char) : Option Int :=
  match s with
  | [] => none
  | c :: rest =>
    if c = '+' then atoiDigits rest false
    else if c = '-' then atoiDigits rest true
    else atoiDigits (c :: rest) false

/-- Embedding of `parseHourMinStr` (resource_basic_schedule.go): split on
`':'`, demand exactly two parts, trim leading zeros (an all-zero part
becomes `"0"`), parse each part with `strconv.Atoi` (failure ⇒ malformed
time), then check `0 ≤ hours < 24` and `0 ≤ minutes < 60` (violation ⇒ out
of range). -/
def parseHourMinStr (hourMin : List Char) : Except ScheduleErr (Int × Int) :=
  match splitOnChar ':' hourMin with
  | [hourPart, minPart] =>
    let hourString := trimZeros hourPart
    let minString := trimZeros minPart
    match strconvAtoi hourString with
    | none => .error .malformedTime
    | some hours =>
      match strconvAtoi minString with
      | none => .error .malformedTime
      | some minutes =>
        if hours < 0 ∨ 24 ≤ hours then .error .outOfRange
        else if minutes < 0 ∨ 60 ≤ minutes then .error .outOfRange
        else .ok (hours, minutes)
  | _ => .error .malformedTime

/-- The module-level `daysOfWeek` table, Sunday first. -/
def daysOfWeek : List (List Char) :=
  ["Sunday".data, "Monday".data, "Tuesday".data, "Wednesday".data,
   "Thursday".data, "Friday".data, "Saturday".data]

/-- Model of `strings.ToLower`, which lowers each rune by the Unicode
simple lowercase mapping.  Besides ASCII `A`-`Z`, exactly two codepoints
lower into the ASCII range: U+0130 (`İ` → `i`) and U+212A (the Kelvin sign
→ `k`); no other character lowers to an ASCII letter, so on every equality
comparison this program performs — always against the pure-ASCII
`daysOfWeek` names — this folding decides equality exactly as Go does. -/
def stringsToLower (s : List Char) : List Char :=
  s.map fun c =>
    if c = Char.ofNat 304 then 'i'
    else if c = Char.ofNat 8490 then 'k'
    else c.toLower

/-- The weekday search loop of `weekdayStartTimeToSeconds`: first index whose
lower-cased table entry equals the lower-cased input, else `none`
(Go's `numDays == -1`). -/
def lookupWeekdayAux (target : List Char) : List (List Char) → Nat → Option Nat
  | [], _ => none
  | d :: ds, idx =>
    if stringsToLower d = stringsToLower target then some idx
    else lookupWeekdayAux target ds (idx + 1)

/-- The weekday lookup over the `daysOfWeek` table. -/
def lookupWeekday (target : List Char) : Option Nat :=
  lookupWeekdayAux target daysOfWeek 0

/-- Embedding of `weekdayStartTimeToSeconds`: parse the `HH:MM` string first
(propagating its error with the `-1` sentinel), then resolve the weekday
name case-insensitively (unknown name ⇒ `unknownWeekday`, sentinel `-1`),
else return `days*86400 + hour*3600 + min*60` and no error.  The result is
the Go pair `(seconds, err)` with `err : Option ScheduleErr`. -/
def weekdayStartTimeToSeconds (weekday startTime : List Char) :
    Int × Option ScheduleErr :=
  match parseHourMinStr startTime with
  | .error e => (-1, some e)
  | .ok (hour, min) =>
    match lookupWeekday weekday with
    | none => (-1, some .unknownWeekday)
    | some numDays =>
      ((numDays : Int) * 86400 + hour * 3600 + min * 60, none)

/-- Embedding of `secondsToDayHourMinute`: truncated division and remainder,
Go's `int` semantics (`Int.tdiv`/`Int.tmod`).  The source's
`int(math.Floor(float64(...)))` wrappers are identities there: they wrap
quantities that are already integers (and far below 2^53, so the float64
round-trip is exact). -/
def secondsToDayHourMinute (seconds : Int) : Int × Int × Int :=
  let days := seconds.tdiv 86400
  let timeInDay := seconds.tmod 86400
  let hours := timeInDay.tdiv 3600
  let minutes := (timeInDay.tmod 3600).tdiv 60
  (days, hours, minutes)

/-- The decimal digit character for `d < 10`. -/
def digitChar (d : Nat) : Char :=
  Char.ofNat (48 + d)

/-- Decimal rendering of a natural number, accumulator form (the digits of
`n` are prepended to `acc`); structural recursion on a fuel argument so the
function reduces by iota (`natToDigits` supplies fuel `n`, always enough
since a number has at most as many extra digits as its value). -/
def natToDigitsAux : Nat → Nat → List Char → List Char
  | 0, n, acc => digitChar n :: acc
  | fuel + 1, n, acc =>
    if n < 10 then digitChar n :: acc
    else natToDigitsAux fuel (n / 10) (digitChar (n % 10) :: acc)

/-- Model of Go `fmt.Sprintf("%d", n)` for a natural number. -/
def natToDigits (n : Nat) : List Char :=
  natToDigitsAux n n []

/-- Model of Go `fmt.Sprintf("%d", i)` for an `int`. -/
def intToDigits (i : Int) : List Char :=
  if i < 0 then '-' :: natToDigits (-i).toNat else natToDigits i.toNat

/-- Model of Go `fmt.Sprintf("%02d", n)`: at least two characters,
zero-padded. -/
def sprintf02d (n : Nat) : List Char :=
  if n < 10 then '0' :: natToDigits n else natToDigits n

/-- The `fmt.Sprintf("%02d:%02d", h, m)` rendering the provider uses to turn
an (hour, minute) pair back into an `HH:MM` string. -/
def formatHHMM (h m : Nat) : List Char :=
  sprintf02d h ++ ':' :: sprintf02d m

/-- Embedding of `prettyPrintDuration` (provider.go): peel off whole weeks,
days, hours, minutes (truncated `int` division and explicit subtraction,
exactly as the source), then append `<count><unit>` for every non-zero
count, in the fixed order w, d, h, m, s, with no separators. -/
def prettyPrintDuration (dur : Int) : List Char :=
  let numWeeks := dur.tdiv 604800
  let durWithoutWeeks := dur - numWeeks * 604800
  let numDays := durWithoutWeeks.tdiv 86400
  let durWithoutDays := durWithoutWeeks - numDays * 86400
  let numHours := durWithoutDays.tdiv 3600
  let durWithoutHours := durWithoutDays - numHours * 3600
  let numMinutes := durWithoutHours.tdiv 60
  let numSeconds := durWithoutHours - numMinutes * 60
  let ret := if numWeeks > 0 then intToDigits numWeeks ++ ['w'] else []
  let ret := if numDays > 0 then ret ++ intToDigits numDays ++ ['d'] else ret
  let ret := if numHours > 0 then ret ++ intToDigits numHours ++ ['h'] else ret
  let ret := if numMinutes > 0 then ret ++ intToDigits numMinutes ++ ['m'] else ret
  let ret := if numSeconds > 0 then ret ++ intToDigits numSeconds ++ ['s'] else ret
  ret

/-- The spec's wording of `formatDurationShorthand`: the greedy
decomposition of `totalSeconds` into weeks (604800 s), days (86400 s),
hours (3600 s), minutes (60 s) and seconds, each non-zero count rendered as
`<count><unit>` in that fixed descending order, nothing for zero counts. -/
def formatDurationShorthandSpec (totalSeconds : Nat) : List Char :=
  (if totalSeconds / 604800 ≠ 0 then natToDigits (totalSeconds / 604800) ++ ['w'] else []) ++
  (if totalSeconds % 604800 / 86400 ≠ 0 then
    natToDigits (totalSeconds % 604800 / 86400) ++ ['d'] else []) ++
  (if totalSeconds % 86400 / 3600 ≠ 0 then
    natToDigits (totalSeconds % 86400 / 3600) ++ ['h'] else []) ++
  (if totalSeconds % 3600 / 60 ≠ 0 then
    natToDigits (totalSeconds % 3600 / 60) ++ ['m'] else []) ++
  (if totalSeconds % 60 ≠ 0 then natToDigits (totalSeconds % 60) ++ ['s'] else [])

/-- Seconds per shorthand unit letter, per the spec's grammar
`{w, d, h, m, s}`. -/
def unitSeconds (c : Char) : Option Nat :=
  if c = 'w' then some 604800
  else if c = 'd' then some 86400
  else if c = 'h' then some 3600
  else if c = 'm' then some 60
  else if c = 's' then some 1
  else none

/-- Token loop of the duration-shorthand grammar: a sequence of
`<digits><unit>` tokens; the values `digits * unitSeconds unit` are summed.
An empty remainder is a completed parse.  Structural recursion on a fuel
argument (each token consumes at least one character, so fuel equal to the
input length, as `parseDurTokens` supplies, is always enough). -/
def parseDurTokensAux : Nat → List Char → Option Nat
  | _, [] => some 0
  | 0, _ :: _ => none
  | fuel + 1, c :: rest =>
    if c.isDigit then
      match List.dropWhile Char.isDigit (c :: rest) with
      | [] => none
      | u :: rest2 =>
        match unitSeconds u with
        | none => none
        | some mult =>
          (parseDurTokensAux fuel rest2).map
            (fun acc => foldDigits 0 (List.takeWhile Char.isDigit (c :: rest)) * mult + acc)
    else none

/-- The duration-shorthand token loop at its adequate fuel. -/
def parseDurTokens (cs : List Char) : Option Nat :=
  parseDurTokensAux cs.length cs

/-- A sequence of shorthand blocks `<count><unit>`, a block omitted when its
count is zero (the shape `formatDurationShorthandSpec` produces). -/
def specBlocks : List (Nat × Char) → List Char
  | [] => []
  | (k, u) :: ps => (if k ≠ 0 then natToDigits k ++ [u] else []) ++ specBlocks ps

/-- Total seconds of a sequence of shorthand blocks. -/
def blockVal : List (Nat × Char) → Nat
  | [] => 0
  | (k, u) :: ps => k * (unitSeconds u).getD 0 + blockVal ps

/-- Go's integer syntax, as `strconv.Atoi` accepts it apart from the range
check: an optional single leading `+` or `-` sign followed by one or more
decimal digits. -/
def goIntForm (t : List Char) : Bool :=
  match t with
  | [] => false
  | c :: rest =>
    if c = '+' ∨ c = '-' then !rest.isEmpty && rest.all Char.isDigit
    else (c :: rest).all Char.isDigit

/-- Modelled from the spec: the duration-shorthand parser the provider
delegates to (`maze.io/x/duration.ParseDuration`, a dependency whose source
is not part of this repository).  Per the spec it accepts a compact
duration string made of concatenated `<integer><unit>` tokens with unit
letters `{w, d, h, m, s}` and returns the total number of seconds, failing
(`MalformedDuration`, here `none`) when the text does not match that
grammar; an empty string contains no token and is rejected. -/
def parseDurationShorthand (cs : List Char) : Option Nat :=
  if cs = [] then none else parseDurTokens cs

section DigitLemmas

lemma digitChar_isDigit {d : Nat} (hd : d < 10) : (digitChar d).isDigit = true := by
  interval_cases d <;> decide

lemma digitChar_toNat {d : Nat} (hd : d < 10) : (digitChar d).toNat = 48 + d := by
  interval_cases d <;> decide

lemma natToDigitsAux_append (fuel : Nat) :
    ∀ (n : Nat) (acc : List Char),
      natToDigitsAux fuel n acc = natToDigitsAux fuel n [] ++ acc := by
  induction fuel with
  | zero => intro n acc; simp [natToDigitsAux]
  | succ g ih =>
    intro n acc
    by_cases hn : n < 10
    · simp [natToDigitsAux, hn]
    · rw [natToDigitsAux, if_neg hn, natToDigitsAux, if_neg hn, ih, ih (n / 10) [_]]
      simp

lemma natToDigitsAux_fuel (f1 : Nat) :
    ∀ (f2 n : Nat) (acc : List Char), n ≤ f1 → n ≤ f2 →
      natToDigitsAux f1 n acc = natToDigitsAux f2 n acc := by
  induction f1 with
  | zero =>
    intro f2 n acc h1 _
    have hn : n = 0 := by omega
    subst hn
    cases f2 with
    | zero => rfl
    | succ k => simp [natToDigitsAux]
  | succ g ih =>
    intro f2 n acc h1 h2
    by_cases hn : n < 10
    · cases f2 with
      | zero =>
        have : n = 0 := by omega
        subst this
        simp [natToDigitsAux]
      | succ k => simp [natToDigitsAux, hn]
    · cases f2 with
      | zero => omega
      | succ k =>
        rw [natToDigitsAux, if_neg hn, natToDigitsAux, if_neg hn]
        have hdlt : n / 10 < n := Nat.div_lt_self (by omega) (by omega)
        exact ih k (n / 10) _ (by omega) (by omega)

lemma natToDigits_of_lt {n : Nat} (hn : n < 10) : natToDigits n = [digitChar n] := by
  unfold natToDigits
  cases n with
  | zero => rfl
  | succ k => rw [natToDigitsAux, if_pos hn]

lemma natToDigits_of_ge {n : Nat} (hn : 10 ≤ n) :
    natToDigits n = natToDigits (n / 10) ++ [digitChar (n % 10)] := by
  obtain ⟨k, rfl⟩ : ∃ k, n = k + 1 := ⟨n - 1, by omega⟩
  unfold natToDigits
  rw [natToDigitsAux, if_neg (by omega), natToDigitsAux_append]
  have hdlt : (k + 1) / 10 < k + 1 := Nat.div_lt_self (by omega) (by omega)
  rw [natToDigitsAux_fuel k ((k + 1) / 10) ((k + 1) / 10) [] (by omega) (by omega)]

lemma natToDigits_all_digits (n : Nat) :
    ∀ c ∈ natToDigits n, c.isDigit = true := by
  induction n using Nat.strongRecOn with
  | ind n ih =>
    by_cases hn : n < 10
    · rw [natToDigits_of_lt hn]
      intro c hc
      simp at hc
      subst hc
      exact digitChar_isDigit hn
    · rw [natToDigits_of_ge (by omega)]
      intro c hc
      rw [List.mem_append] at hc
      rcases hc with hc | hc
      · exact ih (n / 10) (Nat.div_lt_self (by omega) (by omega)) c hc
      · simp at hc
        subst hc
        exact digitChar_isDigit (Nat.mod_lt n (by omega))

lemma natToDigits_ne_nil (n : Nat) : natToDigits n ≠ [] := by
  by_cases hn : n < 10
  · rw [natToDigits_of_lt hn]; simp
  · rw [natToDigits_of_ge (by omega)]; simp

lemma foldDigits_append (a : Nat) (xs ys : List Char) :
    foldDigits a (xs ++ ys) = foldDigits (foldDigits a xs) ys :=
  List.foldl_append _ _ _ _

lemma foldDigits_natToDigits (n : Nat) : foldDigits 0 (natToDigits n) = n := by
  induction n using Nat.strongRecOn with
  | ind n ih =>
    by_cases hn : n < 10
    · rw [natToDigits_of_lt hn]
      simp [foldDigits, digitChar_toNat hn]
    · rw [natToDigits_of_ge (by omega), foldDigits_append,
        ih (n / 10) (Nat.div_lt_self (by omega) (by omega))]
      have h10 : n % 10 < 10 := Nat.mod_lt n (by omega)
      simp [foldDigits, digitChar_toNat h10]
      omega

end DigitLemmas

section ScanLemmas

lemma takeWhile_digits_append {l1 : List Char} (l2 : List Char)
    (h : ∀ c ∈ l1, c.isDigit = true) :
    List.takeWhile Char.isDigit (l1 ++ l2) = l1 ++ List.takeWhile Char.isDigit l2 := by
  induction l1 with
  | nil => simp
  | cons c cs ih =>
    have hc : c.isDigit = true := h c (by simp)
    simp only [List.cons_append, List.takeWhile_cons, hc, if_true]
    rw [ih fun x hx => h x (by simp [hx])]

lemma dropWhile_digits_append {l1 : List Char} (l2 : List Char)
    (h : ∀ c ∈ l1, c.isDigit = true) :
    List.dropWhile Char.isDigit (l1 ++ l2) = List.dropWhile Char.isDigit l2 := by
  induction l1 with
  | nil => simp
  | cons c cs ih =>
    have hc : c.isDigit = true := h c (by simp)
    simp only [List.cons_append, List.dropWhile_cons, hc, if_true]
    exact ih fun x hx => h x (by simp [hx])

lemma splitOnChar_not_mem {sep : Char} {l : List Char} (h : sep ∉ l) :
    splitOnChar sep l = [l] := by
  induction l with
  | nil => rfl
  | cons c cs ih =>
    have hcs : sep ∉ cs := fun hm => h (by simp [hm])
    have hc : c ≠ sep := fun he => h (by simp [he])
    rw [splitOnChar, ih hcs]
    simp [hc]

lemma splitOnChar_append {sep : Char} {a : List Char} (b : List Char)
    (h : sep ∉ a) :
    splitOnChar sep (a ++ sep :: b) = a :: splitOnChar sep b := by
  induction a with
  | nil =>
    simp only [List.nil_append]
    rw [splitOnChar]
    cases hs : splitOnChar sep b with
    | nil =>
      exfalso
      cases b with
      | nil => simp [splitOnChar] at hs
      | cons x xs =>
        rw [splitOnChar] at hs
        rcases hxs : splitOnChar sep xs with _ | ⟨p, ps⟩ <;> rw [hxs] at hs <;>
          by_cases hx : x = sep <;> simp [hx] at hs
    | cons p ps => simp
  | cons c cs ih =>
    have hcs : sep ∉ cs := fun hm => h (by simp [hm])
    have hc : c ≠ sep := fun he => h (by simp [he])
    simp only [List.cons_append]
    rw [splitOnChar, ih hcs]
    simp [hc]

end ScanLemmas

section DurationParserLemmas

lemma length_dropWhile_le (p : Char → Bool) (l : List Char) :
    (List.dropWhile p l).length ≤ l.length := by
  induction l with
  | nil => simp
  | cons c cs ih =>
    rw [List.dropWhile_cons]
    cases p c
    · simp
    · simp only [if_true, List.length_cons]
      omega

lemma parseDurTokensAux_nil (fuel : Nat) : parseDurTokensAux fuel [] = some 0 := by
  cases fuel <;> rfl

lemma parseDurTokensAux_fuel (f1 : Nat) :
    ∀ (f2 : Nat) (cs : List Char), cs.length ≤ f1 → cs.length ≤ f2 →
      parseDurTokensAux f1 cs = parseDurTokensAux f2 cs := by
  induction f1 with
  | zero =>
    intro f2 cs h1 _
    have : cs = [] := by
      cases cs with
      | nil => rfl
      | cons c r => simp at h1
    subst this
    rw [parseDurTokensAux_nil, parseDurTokensAux_nil]
  | succ g ih =>
    intro f2 cs h1 h2
    cases cs with
    | nil => rw [parseDurTokensAux_nil, parseDurTokensAux_nil]
    | cons c rest =>
      cases f2 with
      | zero => simp at h2
      | succ k =>
        rw [parseDurTokensAux, parseDurTokensAux]
        by_cases hc : c.isDigit
        · cases hd : List.dropWhile Char.isDigit (c :: rest) with
          | nil => simp [hc, hd]
          | cons u rest2 =>
            cases hu : unitSeconds u with
            | none => simp [hc, hd, hu]
            | some mult =>
              have hlen : rest2.length < rest.length + 1 := by
                have hle := length_dropWhile_le Char.isDigit rest
                have hd' := hd
                rw [List.dropWhile_cons, if_pos hc] at hd'
                rw [hd'] at hle
                simp at hle
                omega
              simp only [List.length_cons] at h1 h2
              simp only [hc, if_true, hd, hu]
              rw [ih k rest2 (by omega) (by omega)]
        · simp [hc]

lemma parseDurTokensAux_token {k mult : Nat} {u : Char} (rest : List Char) (fuel : Nat)
    (hu : unitSeconds u = some mult) (hnd : u.isDigit = false)
    (hfuel : (natToDigits k ++ u :: rest).length ≤ fuel) :
    parseDurTokensAux fuel (natToDigits k ++ u :: rest) =
      (parseDurTokens rest).map (fun acc => k * mult + acc) := by
  cases hnat : natToDigits k with
  | nil => exact absurd hnat (natToDigits_ne_nil k)
  | cons c ds =>
    have hall : ∀ x ∈ c :: ds, x.isDigit = true := by
      rw [← hnat]; exact natToDigits_all_digits k
    have hc : c.isDigit = true := hall c (by simp)
    have hlen : (c :: ds).length + 1 + rest.length ≤ fuel := by
      rw [hnat] at hfuel
      simp at hfuel ⊢
      omega
    obtain ⟨f, rfl⟩ : ∃ f, fuel = f + 1 := ⟨fuel - 1, by simp at hlen; omega⟩
    rw [List.cons_append, parseDurTokensAux]
    simp only [hc, if_true]
    rw [← List.cons_append, dropWhile_digits_append (u :: rest) hall,
      List.dropWhile_cons, hnd]
    simp only [Bool.false_eq_true, if_false]
    rw [hu, takeWhile_digits_append (u :: rest) hall, List.takeWhile_cons, hnd]
    simp only [Bool.false_eq_true, if_false, List.append_nil]
    rw [← hnat, foldDigits_natToDigits]
    unfold parseDurTokens
    rw [parseDurTokensAux_fuel f rest.length rest (by simp at hlen; omega) (le_refl _)]

lemma parseDurTokens_specBlocks :
    ∀ ps : List (Nat × Char),
      (∀ p ∈ ps, (unitSeconds p.2).isSome ∧ p.2.isDigit = false) →
      parseDurTokens (specBlocks ps) = some (blockVal ps) := by
  intro ps
  induction ps with
  | nil => intro _; rfl
  | cons p ps ih =>
    intro h
    obtain ⟨k, u⟩ := p
    obtain ⟨hsome, hnd⟩ := h (k, u) (by simp)
    obtain ⟨mult, hu⟩ := Option.isSome_iff_exists.mp hsome
    have hps : ∀ q ∈ ps, (unitSeconds q.2).isSome = true ∧ q.2.isDigit = false :=
      fun q hq => h q (List.mem_cons_of_mem _ hq)
    by_cases hk : k = 0
    · subst hk
      simp only [specBlocks, blockVal, ne_eq, not_true_eq_false, if_false,
        List.nil_append, Nat.zero_mul, Nat.zero_add]
      exact ih hps
    · simp only [specBlocks, blockVal, ne_eq, hk, not_false_eq_true, if_true]
      rw [List.append_assoc, List.singleton_append]
      unfold parseDurTokens
      rw [parseDurTokensAux_token (specBlocks ps) _ hu hnd (le_refl _), ih hps]
      simp [hu]

lemma formatDurationShorthandSpec_eq_specBlocks (n : Nat) :
    formatDurationShorthandSpec n =
      specBlocks [(n / 604800, 'w'), (n % 604800 / 86400, 'd'),
        (n % 86400 / 3600, 'h'), (n % 3600 / 60, 'm'), (n % 60, 's')] := by
  simp [formatDurationShorthandSpec, specBlocks]

lemma parseDurTokens_formatSpec (n : Nat) :
    parseDurTokens (formatDurationShorthandSpec n) = some n := by
  rw [formatDurationShorthandSpec_eq_specBlocks,
    parseDurTokens_specBlocks _ (by intro p hp; fin_cases hp <;> exact ⟨rfl, rfl⟩)]
  have hb : blockVal [(n / 604800, 'w'), (n % 604800 / 86400, 'd'),
      (n % 86400 / 3600, 'h'), (n % 3600 / 60, 'm'), (n % 60, 's')] =
      n / 604800 * 604800 + (n % 604800 / 86400 * 86400 + (n % 86400 / 3600 * 3600 +
        (n % 3600 / 60 * 60 + (n % 60 * 1 + 0)))) := rfl
  rw [hb, Option.some_inj]
  omega

lemma formatSpec_block_eq_nil {k : Nat} {u : Char}
    (h : (if k ≠ 0 then natToDigits k ++ [u] else []) = []) : k = 0 := by
  by_cases hk : k ≠ 0
  · rw [if_pos hk] at h
    exact absurd h (by simp)
  · omega

lemma formatSpec_eq_nil (n : Nat) (h : formatDurationShorthandSpec n = []) :
    n = 0 := by
  rw [formatDurationShorthandSpec] at h
  simp only [List.append_eq_nil] at h
  obtain ⟨⟨⟨⟨h1, h2⟩, h3⟩, h4⟩, h5⟩ := h
  have e1 := formatSpec_block_eq_nil h1
  have e2 := formatSpec_block_eq_nil h2
  have e3 := formatSpec_block_eq_nil h3
  have e4 := formatSpec_block_eq_nil h4
  have e5 := formatSpec_block_eq_nil h5
  omega

end DurationParserLemmas

section PrettyPrintLemmas

lemma intToDigits_ofNat (k : Nat) : intToDigits (k : Int) = natToDigits k := by
  rw [intToDigits, if_neg (by omega)]
  simp

lemma if_append_step (c : Prop) [Decidable c] (A X : List Char) :
    (if c then A ++ X else A) = A ++ (if c then X else []) := by
  split <;> simp

lemma prettyPrintDuration_spec (n : Nat) :
    prettyPrintDuration (n : Int) = formatDurationShorthandSpec n := by
  have e1 : (n : Int).tdiv 604800 = ((n / 604800 : Nat) : Int) :=
    (Int.ofNat_tdiv _ _).symm
  have e2 : (n : Int) - ((n / 604800 : Nat) : Int) * 604800 = ((n % 604800 : Nat) : Int) := by
    omega
  have e3 : ((n % 604800 : Nat) : Int).tdiv 86400 = ((n % 604800 / 86400 : Nat) : Int) :=
    (Int.ofNat_tdiv _ _).symm
  have e4 : ((n % 604800 : Nat) : Int) - ((n % 604800 / 86400 : Nat) : Int) * 86400 =
      ((n % 86400 : Nat) : Int) := by
    omega
  have e5 : ((n % 86400 : Nat) : Int).tdiv 3600 = ((n % 86400 / 3600 : Nat) : Int) :=
    (Int.ofNat_tdiv _ _).symm
  have e6 : ((n % 86400 : Nat) : Int) - ((n % 86400 / 3600 : Nat) : Int) * 3600 =
      ((n % 3600 : Nat) : Int) := by
    omega
  have e7 : ((n % 3600 : Nat) : Int).tdiv 60 = ((n % 3600 / 60 : Nat) : Int) :=
    (Int.ofNat_tdiv _ _).symm
  have e8 : ((n % 3600 : Nat) : Int) - ((n % 3600 / 60 : Nat) : Int) * 60 =
      ((n % 60 : Nat) : Int) := by
    omega
  simp only [prettyPrintDuration, formatDurationShorthandSpec]
  rw [e1, e2, e3, e4, e5, e6, e7, e8]
  simp only [gt_iff_lt, Int.natCast_pos, Nat.pos_iff_ne_zero, intToDigits_ofNat]
  simp only [List.append_assoc]
  rw [if_append_step, if_append_step, if_append_step, if_append_step]
  simp only [List.append_assoc]

lemma secondsToDayHourMinute_ofNat (n : Nat) :
    secondsToDayHourMinute (n : Int) =
      (((n / 86400 : Nat) : Int), ((n % 86400 / 3600 : Nat) : Int),
        ((n % 86400 % 3600 / 60 : Nat) : Int)) := by
  have e1 : (n : Int).tdiv 86400 = ((n / 86400 : Nat) : Int) :=
    (Int.ofNat_tdiv _ _).symm
  have e2 : (n : Int).tmod 86400 = ((n % 86400 : Nat) : Int) :=
    (Int.ofNat_tmod _ _).symm
  have e3 : ((n % 86400 : Nat) : Int).tdiv 3600 = ((n % 86400 / 3600 : Nat) : Int) :=
    (Int.ofNat_tdiv _ _).symm
  have e4 : ((n % 86400 : Nat) : Int).tmod 3600 = ((n % 86400 % 3600 : Nat) : Int) :=
    (Int.ofNat_tmod _ _).symm
  have e5 : ((n % 86400 % 3600 : Nat) : Int).tdiv 60 =
      ((n % 86400 % 3600 / 60 : Nat) : Int) :=
    (Int.ofNat_tdiv _ _).symm
  simp only [secondsToDayHourMinute]
  rw [e1, e2, e3, e4, e5]

end PrettyPrintLemmas

section HourMinLemmas

lemma sprintf02d_all_digits (n : Nat) : ∀ c ∈ sprintf02d n, c.isDigit = true := by
  rw [sprintf02d]
  split
  · intro c hc
    rcases List.mem_cons.mp hc with h | h
    · subst h; decide
    · exact natToDigits_all_digits n c h
  · exact natToDigits_all_digits n

lemma colon_not_mem_sprintf02d (n : Nat) : ':' ∉ sprintf02d n := by
  intro hmem
  exact absurd (sprintf02d_all_digits n ':' hmem) (by decide)

lemma splitOnChar_formatHHMM (h m : Nat) :
    splitOnChar ':' (formatHHMM h m) = [sprintf02d h, sprintf02d m] := by
  rw [formatHHMM, splitOnChar_append _ (colon_not_mem_sprintf02d h),
    splitOnChar_not_mem (colon_not_mem_sprintf02d m)]

set_option maxHeartbeats 1000000 in
lemma atoi_trim_sprintf02d : ∀ n : Nat, n < 100 →
    strconvAtoi (trimZeros (sprintf02d n)) = some (n : Int) := by
  decide

lemma parseHourMinStr_formatHHMM {h m : Nat} (hh : h < 24) (hm : m < 60) :
    parseHourMinStr (formatHHMM h m) = .ok ((h : Int), (m : Int)) := by
  simp only [parseHourMinStr, splitOnChar_formatHHMM,
    atoi_trim_sprintf02d h (by omega), atoi_trim_sprintf02d m (by omega)]
  rw [if_neg (show ¬((h : Int) < 0 ∨ 24 ≤ (h : Int)) by omega),
    if_neg (show ¬((m : Int) < 0 ∨ 60 ≤ (m : Int)) by omega)]

lemma parseHourMinStr_error_kind {t : List Char} {e : ScheduleErr}
    (h : parseHourMinStr t = .error e) :
    e = .malformedTime ∨ e = .outOfRange := by
  simp only [parseHourMinStr] at h
  split at h
  · split at h
    · exact .inl (Except.error.inj h).symm
    · split at h
      · exact .inl (Except.error.inj h).symm
      · split at h
        · exact .inr (Except.error.inj h).symm
        · split at h
          · exact .inr (Except.error.inj h).symm
          · simp at h
  · exact .inl (Except.error.inj h).symm

lemma atoiDigits_bad {ds : List Char} (b : Bool)
    (h : ds = [] ∨ ds.all Char.isDigit = false) : atoiDigits ds b = none := by
  rw [atoiDigits]
  rcases h with h | h
  · rw [if_pos h]
  · have hne : ¬ds = [] := by
      intro hnil
      subst hnil
      simp at h
    rw [if_neg hne, h]
    simp

lemma strconvAtoi_bad_form {t : List Char} (h : goIntForm t = false) :
    strconvAtoi t = none := by
  cases t with
  | nil => rfl
  | cons c rest =>
    rw [goIntForm] at h
    rw [strconvAtoi]
    by_cases hp : c = '+'
    · rw [if_pos hp]
      rw [if_pos (Or.inl hp)] at h
      apply atoiDigits_bad
      rcases Bool.and_eq_false_iff.mp h with h | h
      · left
        simpa using h
      · right
        exact h
    · by_cases hm : c = '-'
      · rw [if_neg hp, if_pos hm]
        rw [if_pos (Or.inr hm)] at h
        apply atoiDigits_bad
        rcases Bool.and_eq_false_iff.mp h with h | h
        · left
          simpa using h
        · right
          exact h
      · rw [if_neg hp, if_neg hm]
        rw [if_neg (show ¬(c = '+' ∨ c = '-') by tauto)] at h
        exact atoiDigits_bad _ (.inr h)

end HourMinLemmas

section WeekdayLemmas

lemma lookupWeekday_canonical {i : Nat} (hi : i < 7) {w : List Char}
    (hw : stringsToLower w = stringsToLower (daysOfWeek.getD i [])) :
    lookupWeekday w = some i := by
  interval_cases i <;>
    (simp only [lookupWeekday, lookupWeekdayAux, daysOfWeek] at hw ⊢; rw [hw]; decide)

lemma lookupWeekdayAux_none {w : List Char} :
    ∀ (ds : List (List Char)) (idx : Nat),
      (∀ d ∈ ds, stringsToLower d ≠ stringsToLower w) →
      lookupWeekdayAux w ds idx = none := by
  intro ds
  induction ds with
  | nil => intro idx _; rfl
  | cons d ds ih =>
    intro idx h
    rw [lookupWeekdayAux, if_neg (h d (by simp))]
    exact ih (idx + 1) fun x hx => h x (List.mem_cons_of_mem _ hx)

end WeekdayLemmas

example : parseHourMinStr "23:58".data = .ok (23, 58) := by decide
example : parseHourMinStr "23:60".data = .error .outOfRange := by decide
example : parseHourMinStr "11:30 PM".data = .error .malformedTime := by decide
example : parseHourMinStr "+5:30".data = .ok (5, 30) := by decide
example : parseHourMinStr "-5:30".data = .error .outOfRange := by decide
example : parseHourMinStr "007:05".data = .ok (7, 5) := by decide
example : parseHourMinStr "0:0:0".data = .error .malformedTime := by decide
example : weekdayStartTimeToSeconds "Monday".data "23:58".data = (172680, none) := by decide
example : weekdayStartTimeToSeconds "Sunday".data "00:00".data = (0, none) := by decide
example : weekdayStartTimeToSeconds "Oliverday".data "23:58".data =
    (-1, some .unknownWeekday) := by decide
example : weekdayStartTimeToSeconds ['F', 'R', Char.ofNat 304, 'D', 'A', 'Y']
    "23:58".data = (518280, none) := by decide
example : stringsToLower [Char.ofNat 304, Char.ofNat 8490, 'Q', 'ß'] =
    ['i', 'k', 'q', 'ß'] := by decide
example : weekdayStartTimeToSeconds "Friday".data "11:30 PM".data =
    (-1, some .malformedTime) := by decide
example : secondsToDayHourMinute 172680 = (1, 23, 58) := by decide
example : prettyPrintDuration 60 = "1m".data := by decide
example : prettyPrintDuration 86400 = "1d".data := by decide
example : prettyPrintDuration 604800 = "1w".data := by decide
example : prettyPrintDuration 90060 = "1d1h1m".data := by decide
example : prettyPrintDuration 694860 = "1w1d1h1m".data := by decide
example : prettyPrintDuration 0 = "".data := by decide
example : parseDurationShorthand "1w1d1h1m".data = some 694860 := by decide
example : parseDurationShorthand "90m".data = some 5400 := by decide
example : parseDurationShorthand "".data = none := by decide
example : parseDurationShorthand "1x".data = none := by decide
example : formatDurationShorthandSpec 694860 = "1w1d1h1m".data := by decide

/-- Claim C1: for every weekday index i in [0,6], hour h in [0,23] and
minute m in [0,59], feeding the i-th canonical day name and the `HH:MM`
rendering of (h, m) through `weekdayStartTimeToSeconds` and then
`secondsToDayHourMinute` yields exactly the triple (i, h, m). -/
theorem c1_weekday_time_roundtrip (i h m : Nat)
    (hi : i < 7) (hh : h < 24) (hm : m < 60) :
    secondsToDayHourMinute
        (weekdayStartTimeToSeconds (daysOfWeek.getD i []) (formatHHMM h m)).1 =
      ((i : Int), (h : Int), (m : Int)) := by
  have hp := parseHourMinStr_formatHHMM hh hm
  have hl : lookupWeekday (daysOfWeek.getD i []) = some i :=
    lookupWeekday_canonical hi rfl
  simp only [weekdayStartTimeToSeconds, hp, hl]
  have harith : ((i : Int) * 86400 + (h : Int) * 3600 + (m : Int) * 60) =
      ((i * 86400 + h * 3600 + m * 60 : Nat) : Int) := by
    push_cast
    ring
  rw [harith, secondsToDayHourMinute_ofNat]
  have e1 : (i * 86400 + h * 3600 + m * 60) / 86400 = i := by omega
  have e2 : (i * 86400 + h * 3600 + m * 60) % 86400 / 3600 = h := by omega
  have e3 : (i * 86400 + h * 3600 + m * 60) % 86400 % 3600 / 60 = m := by omega
  rw [e1, e2, e3]

/-- Witness for C1 at (i, h, m) = (1, 23, 58). -/
theorem c1_witness :
    (1 : Nat) < 7 ∧ (23 : Nat) < 24 ∧ (58 : Nat) < 60 ∧
    secondsToDayHourMinute
        (weekdayStartTimeToSeconds (daysOfWeek.getD 1 []) (formatHHMM 23 58)).1 =
      (1, 23, 58) :=
  ⟨by decide, by decide, by decide,
    c1_weekday_time_roundtrip 1 23 58 (by decide) (by decide) (by decide)⟩

/-- Claim C2: whenever the weekday name case-insensitively matches the i-th
canonical day name and the clock-time string parses to (h, m),
`weekdayStartTimeToSeconds` succeeds (no error) with value
i * 86400 + h * 3600 + m * 60. -/
theorem c2_weekdayStartTimeToSeconds_value (i : Nat) (w t : List Char)
    (h m : Int) (hi : i < 7)
    (hw : stringsToLower w = stringsToLower (daysOfWeek.getD i []))
    (ht : parseHourMinStr t = .ok (h, m)) :
    weekdayStartTimeToSeconds w t =
      ((i : Int) * 86400 + h * 3600 + m * 60, none) := by
  simp only [weekdayStartTimeToSeconds, ht, lookupWeekday_canonical hi hw]

/-- Witness for C2: ("Monday", "23:58") gives 172680 and
("Sunday", "00:00") gives 0. -/
theorem c2_witness :
    parseHourMinStr "23:58".data = .ok (23, 58) ∧
    stringsToLower "Monday".data = stringsToLower (daysOfWeek.getD 1 []) ∧
    weekdayStartTimeToSeconds "Monday".data "23:58".data = (172680, none) ∧
    weekdayStartTimeToSeconds "Sunday".data "00:00".data = (0, none) := by
  refine ⟨by decide, by decide, ?_, ?_⟩
  · rw [c2_weekdayStartTimeToSeconds_value 1 "Monday".data "23:58".data 23 58
      (by decide) (by decide) (by decide)]
    decide
  · rw [c2_weekdayStartTimeToSeconds_value 0 "Sunday".data "00:00".data 0 0
      (by decide) (by decide) (by decide)]
    decide

/-- Claim C3 as stated is false: the part "+5" of the input "+5:30" contains
the non-digit sign character '+' after leading-zero stripping, yet
`parseHourMinStr` succeeds with (5, 30) instead of failing with a malformed
time error, because Go's `strconv.Atoi` accepts a leading sign. -/
theorem c3_counterexample : parseHourMinStr "+5:30".data = .ok (5, 30) := by
  decide

/-- Claim C3 (amended): for every input that splits on the colon into
exactly two parts, if either part after leading-zero stripping fails Go's
integer syntax (an optional single leading '+' or '-' sign followed by one
or more decimal digits) — which covers any AM/PM suffix but not a bare
leading sign — the operation fails with the malformed-time error, never
with out-of-range or success. -/
theorem c3_amended_malformed (s a b : List Char)
    (hs : splitOnChar ':' s = [a, b])
    (hbad : goIntForm (trimZeros a) = false ∨ goIntForm (trimZeros b) = false) :
    parseHourMinStr s = .error .malformedTime := by
  simp only [parseHourMinStr, hs]
  rcases hbad with h | h
  · simp only [strconvAtoi_bad_form h]
  · cases ha : strconvAtoi (trimZeros a) with
    | none => rfl
    | some v => simp only [ha, strconvAtoi_bad_form h]

/-- Witness for amended C3 at "11:30 PM" (AM/PM suffix). -/
theorem c3_witness :
    splitOnChar ':' "11:30 PM".data = ["11".data, "30 PM".data] ∧
    goIntForm (trimZeros "30 PM".data) = false ∧
    parseHourMinStr "11:30 PM".data = .error .malformedTime :=
  ⟨by decide, by decide,
    c3_amended_malformed "11:30 PM".data "11".data "30 PM".data (by decide)
      (.inr (by decide))⟩

/-- Claim C4: for every non-negative totalSeconds, `prettyPrintDuration`
emits the greedy decomposition into weeks, days, hours, minutes, seconds in
that fixed order, only for units with non-zero count, each count followed by
its single-letter suffix with no separators (`formatDurationShorthandSpec`
transcribes that wording); in particular the six listed examples hold. -/
theorem c4_prettyPrintDuration_greedy :
    (∀ n : Nat, prettyPrintDuration (n : Int) = formatDurationShorthandSpec n) ∧
    prettyPrintDuration 60 = "1m".data ∧
    prettyPrintDuration 86400 = "1d".data ∧
    prettyPrintDuration 604800 = "1w".data ∧
    prettyPrintDuration (86400 + 3600 + 60) = "1d1h1m".data ∧
    prettyPrintDuration (604800 + 86400 + 3600 + 60) = "1w1d1h1m".data ∧
    prettyPrintDuration 0 = "".data :=
  ⟨prettyPrintDuration_spec, by decide, by decide, by decide, by decide,
    by decide, by decide⟩

/-- Claim C5 as stated is false at x = 0: formatting 0 seconds produces the
empty string, which the duration-shorthand grammar (one or more
`<integer><unit>` tokens) rejects, so the round-trip fails there. -/
theorem c5_counterexample :
    parseDurationShorthand (prettyPrintDuration 0) = none := by
  decide

/-- Claim C5 (amended): for every positive whole number of seconds x,
parsing the formatted shorthand of x succeeds and numerically equals x
(value equivalence, not string identity); at x = 0 the empty string is
produced and rejected by the parser. -/
theorem c5_roundtrip_pos (n : Nat) (hn : 0 < n) :
    parseDurationShorthand (prettyPrintDuration (n : Int)) = some n := by
  have hne : formatDurationShorthandSpec n ≠ [] := fun hnil => by
    have := formatSpec_eq_nil n hnil
    omega
  rw [prettyPrintDuration_spec, parseDurationShorthand, if_neg hne]
  exact parseDurTokens_formatSpec n

/-- Witness for amended C5 at x = 694860 (= 1w1d1h1m). -/
theorem c5_witness :
    (0 : Nat) < 694860 ∧
    parseDurationShorthand (prettyPrintDuration 694860) = some 694860 :=
  ⟨by decide, c5_roundtrip_pos 694860 (by decide)⟩

/-- Claim C6: `secondsToDayHourMinute` is total over non-negative integers
(its type has no error path), computes weekdayIndex = offsetSeconds div
86400, hour = (offsetSeconds mod 86400) div 3600 and minute =
((offsetSeconds mod 86400) mod 3600) div 60, and for every offsetSeconds ≥
604800 it still succeeds, producing weekdayIndex ≥ 7. -/
theorem c6_secondsToDayHourMinute_contract (s : Int) (hs : 0 ≤ s) :
    secondsToDayHourMinute s =
      (s / 86400, s % 86400 / 3600, s % 86400 % 3600 / 60) ∧
    (604800 ≤ s → 7 ≤ (secondsToDayHourMinute s).1) := by
  obtain ⟨n, rfl⟩ : ∃ n : Nat, s = (n : Int) :=
    ⟨s.toNat, (Int.toNat_of_nonneg hs).symm⟩
  rw [secondsToDayHourMinute_ofNat]
  refine ⟨?_, ?_⟩
  · have h1 : ((n / 86400 : Nat) : Int) = (n : Int) / 86400 := by omega
    have h2 : ((n % 86400 / 3600 : Nat) : Int) = (n : Int) % 86400 / 3600 := by
      omega
    have h3 : ((n % 86400 % 3600 / 60 : Nat) : Int) =
        (n : Int) % 86400 % 3600 / 60 := by
      omega
    rw [h1, h2, h3]
  · intro h7
    show (7 : Int) ≤ ((n / 86400 : Nat) : Int)
    omega

/-- Witness for C6 at offsetSeconds = 700000 (≥ 604800, weekdayIndex 8). -/
theorem c6_witness :
    (0 : Int) ≤ 700000 ∧ secondsToDayHourMinute 700000 = (8, 2, 26) ∧
    7 ≤ (secondsToDayHourMinute 700000).1 := by
  have h := c6_secondsToDayHourMinute_contract 700000 (by decide)
  refine ⟨by decide, ?_, h.2 (by decide)⟩
  rw [h.1]
  decide

/-- Claim C7: when the weekday name case-insensitively matches none of the
seven canonical names and the clock-time string parses, the function fails
with the unknown-weekday error and the sentinel value -1. -/
theorem c7_unknown_weekday (w t : List Char) (h m : Int)
    (ht : parseHourMinStr t = .ok (h, m))
    (hw : ∀ d ∈ daysOfWeek, stringsToLower d ≠ stringsToLower w) :
    weekdayStartTimeToSeconds w t = (-1, some .unknownWeekday) := by
  simp only [weekdayStartTimeToSeconds, ht, lookupWeekday,
    lookupWeekdayAux_none daysOfWeek 0 hw]

/-- Witness for C7 at ("Oliverday", "23:58"). -/
theorem c7_witness :
    parseHourMinStr "23:58".data = .ok (23, 58) ∧
    (∀ d ∈ daysOfWeek, stringsToLower d ≠ stringsToLower "Oliverday".data) ∧
    weekdayStartTimeToSeconds "Oliverday".data "23:58".data =
      (-1, some .unknownWeekday) :=
  ⟨by decide, by decide,
    c7_unknown_weekday "Oliverday".data "23:58".data 23 58 (by decide)
      (by decide)⟩

/-- Claim C8: when both parts of the time string parse as integers and the
hour is outside [0,23] or the minute is outside [0,59], the parse fails
with the out-of-range error (not malformed time, not success). -/
theorem c8_out_of_range (s a b : List Char) (ha hb : Int)
    (hs : splitOnChar ':' s = [a, b])
    (hA : strconvAtoi (trimZeros a) = some ha)
    (hB : strconvAtoi (trimZeros b) = some hb)
    (hbad : ha < 0 ∨ 23 < ha ∨ hb < 0 ∨ 59 < hb) :
    parseHourMinStr s = .error .outOfRange := by
  simp only [parseHourMinStr, hs, hA, hB]
  by_cases h1 : ha < 0 ∨ 24 ≤ ha
  · rw [if_pos h1]
  · rw [if_neg h1, if_pos (by omega)]

/-- Witness for C8 at "23:60". -/
theorem c8_witness :
    strconvAtoi (trimZeros "60".data) = some 60 ∧
    parseHourMinStr "23:60".data = .error .outOfRange :=
  ⟨by decide,
    c8_out_of_range "23:60".data "23".data "60".data 23 60 (by decide)
      (by decide) (by decide) (by decide)⟩

/-- Claim C9: with both an invalid clock-time string and an unknown weekday
name, the returned error is the clock-time parsing error (malformed time or
out of range), not unknown weekday: the time is parsed before the weekday
lookup. -/
theorem c9_time_error_first (w t : List Char) (e : ScheduleErr)
    (ht : parseHourMinStr t = .error e)
    (hw : ∀ d ∈ daysOfWeek, stringsToLower d ≠ stringsToLower w) :
    weekdayStartTimeToSeconds w t = (-1, some e) ∧
    (e = .malformedTime ∨ e = .outOfRange) := by
  refine ⟨?_, parseHourMinStr_error_kind ht⟩
  simp only [weekdayStartTimeToSeconds, ht]

/-- Witness for C9 at ("Oliverday", "11:30 PM"). -/
theorem c9_witness :
    parseHourMinStr "11:30 PM".data = .error .malformedTime ∧
    (∀ d ∈ daysOfWeek, stringsToLower d ≠ stringsToLower "Oliverday".data) ∧
    weekdayStartTimeToSeconds "Oliverday".data "11:30 PM".data =
      (-1, some .malformedTime) :=
  ⟨by decide, by decide,
    (c9_time_error_first "Oliverday".data "11:30 PM".data .malformedTime
      (by decide) (by decide)).1⟩

/-- Claim C10: for every non-negative input, the hour component of
`secondsToDayHourMinute` lies in [0,23] and the minute component in [0,59],
although the day component is unbounded. -/
theorem c10_hour_minute_in_range (s : Int) (hs : 0 ≤ s) :
    0 ≤ (secondsToDayHourMinute s).2.1 ∧ (secondsToDayHourMinute s).2.1 ≤ 23 ∧
    0 ≤ (secondsToDayHourMinute s).2.2 ∧ (secondsToDayHourMinute s).2.2 ≤ 59 := by
  obtain ⟨n, rfl⟩ : ∃ n : Nat, s = (n : Int) :=
    ⟨s.toNat, (Int.toNat_of_nonneg hs).symm⟩
  rw [secondsToDayHourMinute_ofNat]
  refine ⟨?_, ?_, ?_, ?_⟩ <;> simp <;> omega

/-- Witness for C10 at offsetSeconds = 359999 (Thursday 03:59:59). -/
theorem c10_witness :
    (0 : Int) ≤ 359999 ∧
    0 ≤ (secondsToDayHourMinute 359999).2.1 ∧
    (secondsToDayHourMinute 359999).2.1 ≤ 23 ∧
    0 ≤ (secondsToDayHourMinute 359999).2.2 ∧
    (secondsToDayHourMinute 359999).2.2 ≤ 59 := by
  have h := c10_hour_minute_in_range 359999 (by decide)
  exact ⟨by decide, h.1, h.2.1, h.2.2.1, h.2.2.2⟩
